import Mathlib

/-
Shallow embedding of the bmfa bitmap font atlas library
(src/src/bitmap_font_atlas.rs) together with proofs of the specification
claims about it.

Modelling conventions:
  - Rust usize is modelled as Nat (all the quantities involved are small
    and non-negative; usize subtraction in the flip loop only happens on
    values where Rust would not underflow when the loop body runs, and the
    Lean truncated subtraction agrees with the Rust value at every index
    the code actually uses).
  - Rust f32 fields are modelled as Float; the library performs no
    arithmetic on them, they are inert payload.
  - Vec<u8> is modelled as List UInt8.  An out-of-bounds index panic is
    modelled by returning none from the operation, so the in-place flip
    loop is a function into Option (List UInt8).
  - HashMap<usize, GlyphMetadata> is modelled as an association list
    List (Nat × GlyphMetadata); the library only constructs, clones and
    compares the table, never performs keyed lookups on it.
  - The external collaborators (zip archive, serde_json, png codec) are
    out of scope per the specification and are modelled by their fixed
    contracts: an archive is a list of named entries, and an entry is
    either a value that the JSON schema decode accepts, a value that the
    PNG raster decode accepts, or bytes that both decoders reject.
-/

/-- Model of the Origin enum: which corner of the atlas image is the
coordinate origin. -/
inductive Origin where
  | TopLeft
  | BottomLeft
deriving DecidableEq

/-- Model of the GlyphMetadata struct: the parameters necessary to
represent one glyph in a bitmap font atlas. -/
structure GlyphMetadata where
  code_point : Nat
  row : Nat
  column : Nat
  x_min : Float
  width : Float
  height : Float
  y_min : Float
  y_offset : Float

/-- Model of GlyphMetadata::new. -/
def GlyphMetadata.new (code_point row column : Nat)
    (width height x_min y_min y_offset : Float) : GlyphMetadata :=
  ⟨code_point, row, column, x_min, width, height, y_min, y_offset⟩

/-- Model of the BitmapFontAtlasMetadata struct: all the information about
the image and every glyph in the font atlas. -/
structure BitmapFontAtlasMetadata where
  origin : Origin
  dimensions : Nat
  columns : Nat
  rows : Nat
  padding : Nat
  slot_glyph_size : Nat
  glyph_size : Nat
  glyph_metadata : List (Nat × GlyphMetadata)

/-- Model of the BitmapFontAtlasImage struct: the raw image with its
origin tag and pixel dimensions. -/
structure BitmapFontAtlasImage where
  origin : Origin
  width : Nat
  height : Nat
  data : List UInt8

/-- Model of BitmapFontAtlasImage::new. -/
def BitmapFontAtlasImage.new (data : List UInt8) (width height : Nat)
    (origin : Origin) : BitmapFontAtlasImage :=
  ⟨origin, width, height, data⟩

/-- Model of BitmapFontAtlasImage::len_bytes. -/
def BitmapFontAtlasImage.len_bytes (image : BitmapFontAtlasImage) : Nat :=
  image.data.length

/-- Model of the BitmapFontAtlas struct: the atlas metadata fields
together with the atlas image. -/
structure BitmapFontAtlas where
  origin : Origin
  dimensions : Nat
  columns : Nat
  rows : Nat
  padding : Nat
  slot_glyph_size : Nat
  glyph_size : Nat
  glyph_metadata : List (Nat × GlyphMetadata)
  image : BitmapFontAtlasImage

/-- Model of BitmapFontAtlas::new: copy every metadata field and attach
the image. -/
def BitmapFontAtlas.new (metadata : BitmapFontAtlasMetadata)
    (image : BitmapFontAtlasImage) : BitmapFontAtlas :=
  ⟨metadata.origin, metadata.dimensions, metadata.columns, metadata.rows,
   metadata.padding, metadata.slot_glyph_size, metadata.glyph_size,
   metadata.glyph_metadata, image⟩

/-- Model of BitmapFontAtlas::metadata: re-derive the metadata record from
the atlas fields. -/
def BitmapFontAtlas.metadata (atlas : BitmapFontAtlas) :
    BitmapFontAtlasMetadata :=
  ⟨atlas.origin, atlas.dimensions, atlas.columns, atlas.rows,
   atlas.padding, atlas.slot_glyph_size, atlas.glyph_size,
   atlas.glyph_metadata⟩

/-- One body of the inner flip loop: read data at index i into temp, read
data at index j and store it at i, store temp at j.  Vec indexing out of
bounds panics, modelled by none; the reads are attempted in the order the
Rust code performs them. -/
def swapIdx (d : List UInt8) (i j : Nat) : Option (List UInt8) := do
  let temp ← d[i]?
  let v ← d[j]?
  pure ((d.set i v).set j temp)

/-- The inner column loop of the flip in BitmapFontAtlasBuilder::build and
to_writer: perform n byte swaps at index pairs (i + t, j + t) for
t = 0, 1, ..., n - 1, in increasing order of t. -/
def colLoop (i j : Nat) : Nat → List UInt8 → Option (List UInt8)
  | 0, d => some d
  | n + 1, d => do
    let d1 ← swapIdx d i j
    colLoop (i + 1) (j + 1) n d1

/-- The outer row loop of the flip: for n successive rows starting at row,
swap byte row row with byte row H - row - 1, each row being S bytes. -/
def rowLoop (S H : Nat) : Nat → Nat → List UInt8 → Option (List UInt8)
  | _, 0, d => some d
  | row, n + 1, d => do
    let d1 ← colLoop (row * S) ((H - row - 1) * S) S d
    rowLoop S H (row + 1) n d1

/-- The complete vertical flip loop nest shared verbatim by
BitmapFontAtlasBuilder::build and to_writer: row stride is 4 * width
bytes and the outer loop runs for row in 0..(height / 2). -/
def flipImage (width height : Nat) (data : List UInt8) :
    Option (List UInt8) :=
  rowLoop (4 * width) height 0 (height / 2) data

/-- Model of the BitmapFontAtlasBuilder struct. -/
structure BitmapFontAtlasBuilder where
  metadata : BitmapFontAtlasMetadata
  image : BitmapFontAtlasImage

/-- Model of BitmapFontAtlasBuilder::new. -/
def BitmapFontAtlasBuilder.new (metadata : BitmapFontAtlasMetadata)
    (image : BitmapFontAtlasImage) : BitmapFontAtlasBuilder :=
  ⟨metadata, image⟩

/-- Model of BitmapFontAtlasBuilder::build: if the metadata origin is
BottomLeft, flip the image data in place (none models an index panic),
then assemble the atlas from the metadata and the image. -/
def BitmapFontAtlasBuilder.build (b : BitmapFontAtlasBuilder) :
    Option BitmapFontAtlas :=
  if b.metadata.origin = Origin.BottomLeft then
    match flipImage b.image.width b.image.height b.image.data with
    | some d => some (BitmapFontAtlas.new b.metadata { b.image with data := d })
    | none => none
  else
    some (BitmapFontAtlas.new b.metadata b.image)

/-- Model of the ErrorKind enum. -/
inductive ErrorKind where
  | FileNotFound
  | FileExistsButCannotBeOpened
  | FontAtlasImageNotFound
  | CannotLoadAtlasImage
  | FontMetadataNotFound
  | CannotLoadAtlasMetadata
deriving DecidableEq

/-- Model of one zip archive entry, by what the external decoders make of
its bytes: json e decodes under the metadata schema decode to e, png
decodes under the raster decode to a width, a height and a pixel buffer,
and corrupt bytes are rejected by both decoders. -/
inductive Entry where
  | json (m : BitmapFontAtlasMetadata)
  | png (width height : Nat) (data : List UInt8)
  | corrupt

/-- Model of the reader handed to from_reader: either bytes that the zip
archive collaborator rejects, or an opened archive given by its named
entries. -/
inductive Source where
  | unopenable
  | archive (entries : List (String × Entry))

/-- Contract of the serde_json collaborator on an entry: the metadata
schema decode succeeds exactly on entries holding a metadata record. -/
def decodeMetadata : Entry → Option BitmapFontAtlasMetadata
  | Entry.json m => some m
  | _ => none

/-- Contract of the png collaborator on an entry: the raster decode
succeeds exactly on entries holding a raster image, yielding its
dimensions and its pixel bytes. -/
def decodePng : Entry → Option (Nat × Nat × List UInt8)
  | Entry.png w h d => some (w, h, d)
  | _ => none

/-- Result of from_reader: an atlas, a typed error, or a panic raised by
the out-of-bounds image indexing inside the builder. -/
inductive ReadResult where
  | ok (atlas : BitmapFontAtlas)
  | err (kind : ErrorKind)
  | panicked

/-- True exactly when a read produced an atlas. -/
def ReadResult.isOk : ReadResult → Bool
  | ReadResult.ok _ => true
  | _ => false

/-- The error kind of a failed read, none when the read produced an atlas
or panicked. -/
def readErrorKind : ReadResult → Option ErrorKind
  | ReadResult.err k => some k
  | _ => none

/-- Model of from_reader: open the zip archive, fetch and decode the
metadata.json entry, fetch and decode the atlas.png entry, then run the
builder, mapping each failure to the error kind the code attaches at that
step. -/
def from_reader (src : Source) : ReadResult :=
  match src with
  | Source.unopenable => ReadResult.err ErrorKind.FileExistsButCannotBeOpened
  | Source.archive entries =>
    match entries.lookup "metadata.json" with
    | none => ReadResult.err ErrorKind.FontMetadataNotFound
    | some metadataFile =>
      match decodeMetadata metadataFile with
      | none => ReadResult.err ErrorKind.CannotLoadAtlasMetadata
      | some metadata =>
        match entries.lookup "atlas.png" with
        | none => ReadResult.err ErrorKind.FontAtlasImageNotFound
        | some atlasFile =>
          match decodePng atlasFile with
          | none => ReadResult.err ErrorKind.CannotLoadAtlasImage
          | some (width, height, image) =>
            match (BitmapFontAtlasBuilder.new metadata
                (BitmapFontAtlasImage.new image width height metadata.origin)).build with
            | some atlas => ReadResult.ok atlas
            | none => ReadResult.panicked

/-- Result of to_writer: the container that was written, or a panic raised
by the out-of-bounds image indexing in the write-side flip. -/
inductive WriteResult where
  | ok (written : Source)
  | panicked

/-- The write-side flip in to_writer, applied to the cloned image local:
if the clone declares a BottomLeft origin, flip its rows back over before
encoding; otherwise leave the clone as it is. -/
def flippedForWrite (image : BitmapFontAtlasImage) :
    Option BitmapFontAtlasImage :=
  if image.origin = Origin.BottomLeft then
    match flipImage image.width image.height image.data with
    | some d => some { image with data := d }
    | none => none
  else
    some image

/-- Model of to_writer with explicit state passing: the first component is
what was written, the second component is the caller atlas as it stands
after the call returns.  The code writes metadata.json from
atlas.metadata(), clones the image, flips the clone when its origin is
BottomLeft, and encodes the clone with atlas.dimensions as both png
dimensions; the borrow of the atlas is never written through. -/
def to_writer (atlas : BitmapFontAtlas) : WriteResult × BitmapFontAtlas :=
  match flippedForWrite atlas.image with
  | none => (WriteResult.panicked, atlas)
  | some image =>
    (WriteResult.ok (Source.archive
      [("metadata.json", Entry.json atlas.metadata),
       ("atlas.png", Entry.png atlas.dimensions atlas.dimensions image.data)]),
     atlas)

/-- Rust Path::extension on a file name (the final path component, known
to be nonempty): the portion after the last dot, unless there is no dot
or the only dot is the leading character. -/
def rustExtension (name : List Char) : Option (List Char) :=
  let after := (name.reverse.takeWhile (fun c => c ≠ '.')).reverse
  if after.length = name.length then none
  else if after.length + 1 = name.length then none
  else some after

/-- Rust Path::file_stem on a file name: the portion before the extension,
or the whole name when there is no extension. -/
def rustFileStem (name : List Char) : List Char :=
  match rustExtension name with
  | none => name
  | some ext => name.take (name.length - ext.length - 1)

/-- Rust PathBuf::set_extension restricted to the file name component:
replace the name by its stem followed by a dot and the new extension
(the new extension is nonempty in every use here). -/
def setExtensionName (name ext : List Char) : List Char :=
  if ext = [] then rustFileStem name else rustFileStem name ++ '.' :: ext

/-- Rust PathBuf::set_extension on a path, modelled by its file name
component: none models a path with no final file name component (for
example a root path or a path ending in a parent-directory component),
on which set_extension does nothing and returns false. -/
def pathSetExtension (fileName : Option (List Char)) (ext : List Char) :
    Option (List Char) :=
  match fileName with
  | none => none
  | some name => some (setExtensionName name ext)

/-- The dedicated bmfa container extension. -/
def bmfaExt : List Char := ['b', 'm', 'f', 'a']

/-- Model of write_to_file: replace the path extension with bmfa, create
the file there, and run to_writer on it.  The first component is the path
of the file that gets created, the rest is the to_writer outcome. -/
def write_to_file (path : Option (List Char)) (atlas : BitmapFontAtlas) :
    Option (List Char) × (WriteResult × BitmapFontAtlas) :=
  (pathSetExtension path bmfaExt, to_writer atlas)


/-
Lemmas about the flip loop nest.
-/

/-- A successful body of the inner loop swaps the bytes at the two indices
and leaves every other position alone. -/
theorem swapIdx_char (d : List UInt8) (i j : Nat)
    (hi : i < d.length) (hj : j < d.length) :
    ∃ e, swapIdx d i j = some e ∧ e.length = d.length ∧
      ∀ k, e[k]? =
        if k = j then d[i]?
        else if k = i then d[j]?
        else d[k]? := by
  have hvi := List.getElem?_eq_getElem hi
  have hvj := List.getElem?_eq_getElem hj
  refine ⟨(d.set i d[j]).set j d[i], ?_, ?_, ?_⟩
  · simp only [swapIdx, hvi, hvj, Option.bind_eq_bind, Option.some_bind, Option.pure_def]
  · simp [List.length_set]
  · intro k
    by_cases hkj : k = j
    · rw [if_pos hkj, hkj,
        List.getElem?_set_eq_of_lt _ (by simp only [List.length_set]; exact hj), hvi]
    · rw [if_neg hkj, List.getElem?_set_ne (fun h => hkj h.symm)]
      by_cases hki : k = i
      · rw [if_pos hki, hki, List.getElem?_set_eq_of_lt _ hi, hvj]
      · rw [if_neg hki, List.getElem?_set_ne (fun h => hki h.symm)]

/-- The inner loop over n columns, with the two row segments disjoint and
in bounds, succeeds and swaps the two length-n segments pointwise. -/
theorem colLoop_char : ∀ (n i j : Nat) (d : List UInt8),
    i + n ≤ j → j + n ≤ d.length →
    ∃ e, colLoop i j n d = some e ∧ e.length = d.length ∧
      ∀ k, e[k]? =
        if i ≤ k ∧ k < i + n then d[j + (k - i)]?
        else if j ≤ k ∧ k < j + n then d[i + (k - j)]?
        else d[k]? := by
  intro n
  induction n with
  | zero =>
    intro i j d _ _
    refine ⟨d, rfl, rfl, ?_⟩
    intro k
    rw [if_neg (by omega), if_neg (by omega)]
  | succ n ih =>
    intro i j d hij hlen
    have hi : i < d.length := by omega
    have hj : j < d.length := by omega
    obtain ⟨e1, hswap, hlen1, hget1⟩ := swapIdx_char d i j hi hj
    obtain ⟨e, hloop, hlen2, hget⟩ :=
      ih (i + 1) (j + 1) e1 (by omega) (by omega)
    refine ⟨e, ?_, by omega, ?_⟩
    · simp only [colLoop, hswap, Option.bind_eq_bind, Option.some_bind]
      exact hloop
    · intro k
      rw [hget k]
      by_cases c1 : i ≤ k ∧ k < i + (n + 1)
      · rw [if_pos c1]
        by_cases hki : k = i
        · rw [if_neg (by omega : ¬(i + 1 ≤ k ∧ k < i + 1 + n)),
            if_neg (by omega : ¬(j + 1 ≤ k ∧ k < j + 1 + n)),
            hget1 k, if_neg (by omega : ¬(k = j)), if_pos hki,
            show j + (k - i) = j by omega]
        · rw [if_pos (by omega : i + 1 ≤ k ∧ k < i + 1 + n),
            show j + 1 + (k - (i + 1)) = j + (k - i) by omega,
            hget1 (j + (k - i)), if_neg (by omega : ¬(j + (k - i) = j)),
            if_neg (by omega : ¬(j + (k - i) = i))]
      · rw [if_neg c1]
        by_cases c2 : j ≤ k ∧ k < j + (n + 1)
        · rw [if_pos c2]
          by_cases hkj : k = j
          · rw [if_neg (by omega : ¬(i + 1 ≤ k ∧ k < i + 1 + n)),
              if_neg (by omega : ¬(j + 1 ≤ k ∧ k < j + 1 + n)),
              hget1 k, if_pos hkj, show i + (k - j) = i by omega]
          · rw [if_neg (by omega : ¬(i + 1 ≤ k ∧ k < i + 1 + n)),
              if_pos (by omega : j + 1 ≤ k ∧ k < j + 1 + n),
              show i + 1 + (k - (j + 1)) = i + (k - j) by omega,
              hget1 (i + (k - j)), if_neg (by omega : ¬(i + (k - j) = j)),
              if_neg (by omega : ¬(i + (k - j) = i))]
        · rw [if_neg c2,
            if_neg (by omega : ¬(i + 1 ≤ k ∧ k < i + 1 + n)),
            if_neg (by omega : ¬(j + 1 ≤ k ∧ k < j + 1 + n)),
            hget1 k, if_neg (by omega : ¬(k = j)),
            if_neg (by omega : ¬(k = i))]

/-- A nonempty inner loop whose upper segment reaches past the end of the
buffer panics. -/
theorem colLoop_panics : ∀ (n i j : Nat) (d : List UInt8),
    0 < n → d.length < j + n → colLoop i j n d = none := by
  intro n
  induction n with
  | zero => intro i j d h _; omega
  | succ n ih =>
    intro i j d _ hlen
    cases hgi : d[i]? with
    | none => simp [colLoop, swapIdx, hgi]
    | some a =>
      cases hgj : d[j]? with
      | none => simp [colLoop, swapIdx, hgi, hgj]
      | some b =>
        have hj : j < d.length := by
          by_contra h
          rw [List.getElem?_eq_none (by omega)] at hgj
          exact Option.noConfusion hgj
        have hstep : swapIdx d i j = some ((d.set i b).set j a) := by
          simp only [swapIdx, hgi, hgj, Option.bind_eq_bind, Option.some_bind,
            Option.pure_def]
        have hrec := ih (i + 1) (j + 1) ((d.set i b).set j a)
          (by omega) (by simp only [List.length_set]; omega)
        simp only [colLoop, hstep, Option.bind_eq_bind, Option.some_bind]
        exact hrec

/-- Unfolding of a successor-row multiple, in the shape omega can use. -/
theorem add_one_mul_eq (b S : Nat) : (b + 1) * S = b * S + S := by ring

/-- An index inside row a of a row-major buffer with stride S lies in the
index range of row b exactly when the two rows coincide. -/
theorem row_mem_iff {S a b c : Nat} (hc : c < S) :
    (b * S ≤ a * S + c ∧ a * S + c < b * S + S) ↔ a = b := by
  constructor
  · rintro ⟨h1, h2⟩
    have ha : a * S < (b + 1) * S := by
      have hs := add_one_mul_eq b S
      omega
    have hb : b * S < (a + 1) * S := by
      have hs := add_one_mul_eq a S
      omega
    have ha2 : S * a < S * (b + 1) := by
      rw [Nat.mul_comm S a, Nat.mul_comm S (b + 1)]; exact ha
    have hb2 : S * b < S * (a + 1) := by
      rw [Nat.mul_comm S b, Nat.mul_comm S (a + 1)]; exact hb
    have h3 := Nat.lt_of_mul_lt_mul_left ha2
    have h4 := Nat.lt_of_mul_lt_mul_left hb2
    omega
  · rintro rfl
    omega

/-- The outer loop over n rows starting at row start, with every processed
row strictly inside the lower half of the image and the whole image inside
the buffer, succeeds; each processed row and its mirror row receive the
bytes of the other, and every other row of the image keeps its bytes. -/
theorem rowLoop_char (S H : Nat) : ∀ (n start : Nat) (d : List UInt8),
    start + n ≤ H / 2 → H * S ≤ d.length →
    ∃ e, rowLoop S H start n d = some e ∧ e.length = d.length ∧
      ∀ r c, c < S → r < H →
        e[r * S + c]? =
          if (start ≤ r ∧ r < start + n) ∨ (H - (start + n) ≤ r ∧ r < H - start)
          then d[(H - 1 - r) * S + c]?
          else d[r * S + c]? := by
  intro n
  induction n with
  | zero =>
    intro start d _ _
    refine ⟨d, rfl, rfl, ?_⟩
    intro r c _ _
    rw [if_neg (by omega)]
  | succ n ih =>
    intro start d hhalf hlen
    have hs2 : start < H / 2 := by omega
    have hH : 2 ≤ H := by omega
    have hij : start * S + S ≤ (H - start - 1) * S := by
      have hmul : (start + 1) * S ≤ (H - start - 1) * S :=
        Nat.mul_le_mul_right S (by omega)
      have hs := add_one_mul_eq start S
      omega
    have hjlen : (H - start - 1) * S + S ≤ d.length := by
      have hmul : (H - start) * S ≤ H * S :=
        Nat.mul_le_mul_right S (by omega)
      have hs := add_one_mul_eq (H - start - 1) S
      rw [show H - start - 1 + 1 = H - start from by omega] at hs
      omega
    obtain ⟨e1, hcol, hlen1, hget1⟩ :=
      colLoop_char S (start * S) ((H - start - 1) * S) d hij (by omega)
    obtain ⟨e, hrow, hlen2, hget⟩ := ih (start + 1) e1 (by omega) (by omega)
    have hrowget : ∀ a cc, cc < S → a < H →
        e1[a * S + cc]? =
          if a = start then d[(H - start - 1) * S + cc]?
          else if a = H - start - 1 then d[start * S + cc]?
          else d[a * S + cc]? := by
      intro a cc hcc _
      rw [hget1 (a * S + cc)]
      by_cases h1 : a = start
      · rw [if_pos ((row_mem_iff hcc).mpr h1), if_pos h1, h1,
          show (H - start - 1) * S + (start * S + cc - start * S) =
            (H - start - 1) * S + cc by omega]
      · rw [if_neg (fun hmem => h1 ((row_mem_iff hcc).mp hmem)), if_neg h1]
        by_cases h2 : a = H - start - 1
        · rw [if_pos ((row_mem_iff hcc).mpr h2), if_pos h2, h2,
            show start * S + ((H - start - 1) * S + cc - (H - start - 1) * S) =
              start * S + cc by omega]
        · rw [if_neg (fun hmem => h2 ((row_mem_iff hcc).mp hmem)), if_neg h2]
    refine ⟨e, ?_, by omega, ?_⟩
    · simp only [rowLoop, hcol, Option.bind_eq_bind, Option.some_bind]
      exact hrow
    · intro r c hc hr
      rw [hget r c hc hr]
      by_cases hIH : (start + 1 ≤ r ∧ r < start + 1 + n) ∨
          (H - (start + 1 + n) ≤ r ∧ r < H - (start + 1))
      · rw [if_pos hIH, hrowget (H - 1 - r) c hc (by omega),
          if_neg (by omega : ¬(H - 1 - r = start)),
          if_neg (by omega : ¬(H - 1 - r = H - start - 1)),
          if_pos (by omega :
            (start ≤ r ∧ r < start + (n + 1)) ∨
            (H - (start + (n + 1)) ≤ r ∧ r < H - start))]
      · rw [if_neg hIH, hrowget r c hc hr]
        by_cases h1 : r = start
        · rw [if_pos h1,
            if_pos (by omega :
              (start ≤ r ∧ r < start + (n + 1)) ∨
              (H - (start + (n + 1)) ≤ r ∧ r < H - start)),
            show H - 1 - r = H - start - 1 by omega]
        · rw [if_neg h1]
          by_cases h2 : r = H - start - 1
          · rw [if_pos h2,
              if_pos (by omega :
                (start ≤ r ∧ r < start + (n + 1)) ∨
                (H - (start + (n + 1)) ≤ r ∧ r < H - start)),
              show H - 1 - r = start by omega]
          · rw [if_neg h2, if_neg (by omega :
              ¬((start ≤ r ∧ r < start + (n + 1)) ∨
                (H - (start + (n + 1)) ≤ r ∧ r < H - start)))]

/-- The whole flip loop nest, on a buffer that contains the full image,
succeeds and reverses the vertical order of the rows pointwise. -/
theorem flipImage_char (W H : Nat) (data : List UInt8)
    (hlen : H * (4 * W) ≤ data.length) :
    ∃ e, flipImage W H data = some e ∧ e.length = data.length ∧
      ∀ r c, c < 4 * W → r < H →
        e[r * (4 * W) + c]? = data[(H - 1 - r) * (4 * W) + c]? := by
  obtain ⟨e, hrow, hl, hget⟩ :=
    rowLoop_char (4 * W) H (H / 2) 0 data (by omega) hlen
  refine ⟨e, hrow, hl, ?_⟩
  intro r c hc hr
  rw [hget r c hc hr]
  by_cases hz : (0 ≤ r ∧ r < 0 + H / 2) ∨ (H - (0 + H / 2) ≤ r ∧ r < H - 0)
  · rw [if_pos hz]
  · rw [if_neg hz, show H - 1 - r = r from by omega]

/-- A zero byte stride makes every iteration of the loop nest a no-op. -/
theorem rowLoop_zero_stride (H : Nat) : ∀ (n row : Nat) (d : List UInt8),
    rowLoop 0 H row n d = some d := by
  intro n
  induction n with
  | zero => intro row d; rfl
  | succ n ih =>
    intro row d
    simp only [rowLoop, colLoop, Option.bind_eq_bind, Option.some_bind]
    exact ih (row + 1) d

/-- A zero-width or zero-height image makes the flip loop nest a no-op
that performs no indexing at all. -/
theorem flipImage_trivial (W H : Nat) (data : List UInt8)
    (h : W = 0 ∨ H = 0) : flipImage W H data = some data := by
  rcases h with h | h
  · rw [flipImage, h, Nat.mul_zero]
    exact rowLoop_zero_stride H (H / 2) 0 data
  · rw [flipImage, h]
    rfl

/-- Applying the flip loop nest twice to a buffer of exactly the image
size restores the buffer. -/
theorem flipImage_involutive (W H : Nat) (data : List UInt8)
    (hlen : data.length = 4 * W * H) :
    ∃ e, flipImage W H data = some e ∧ flipImage W H e = some data := by
  have hcomm : 4 * W * H = H * (4 * W) := by ring
  have hle : H * (4 * W) ≤ data.length := by omega
  obtain ⟨e, he, hlen1, hchar⟩ := flipImage_char W H data hle
  obtain ⟨e2, he2, hlen2, hchar2⟩ := flipImage_char W H e (by omega)
  refine ⟨e, he, ?_⟩
  rw [he2]
  congr 1
  apply List.ext_getElem?
  intro k
  by_cases hk : k < H * (4 * W)
  · have hW : 0 < 4 * W := by
      rcases Nat.eq_zero_or_pos (4 * W) with h0 | h0
      · rw [h0, Nat.mul_zero] at hk; omega
      · exact h0
    have hdm := Nat.div_add_mod k (4 * W)
    have hc : k % (4 * W) < 4 * W := Nat.mod_lt _ hW
    have hr : k / (4 * W) < H := (Nat.div_lt_iff_lt_mul hW).mpr (by omega)
    have hH : 0 < H := by
      rcases Nat.eq_zero_or_pos H with h0 | h0
      · rw [h0, Nat.zero_mul] at hk; omega
      · exact h0
    obtain ⟨q, hq⟩ : ∃ q, k / (4 * W) = q := ⟨_, rfl⟩
    obtain ⟨cc, hcc⟩ : ∃ cc, k % (4 * W) = cc := ⟨_, rfl⟩
    rw [hq] at hr
    rw [hq, hcc] at hdm
    rw [hcc] at hc
    have hk_eq : k = q * (4 * W) + cc := by
      have := Nat.mul_comm (4 * W) q
      omega
    have hr2 : H - 1 - q < H := by omega
    have hinv : H - 1 - (H - 1 - q) = q := by omega
    rw [hk_eq, hchar2 _ _ hc hr, hchar _ _ hc hr2, hinv]
  · rw [List.getElem?_eq_none (by omega), List.getElem?_eq_none (by omega)]

/-- On a buffer strictly shorter than the image it declares, with at least
two rows and a nonzero width, the flip loop nest panics on its very first
row: the mirror index of the first row reaches past the end of the
buffer. -/
theorem flipImage_panics (W H : Nat) (data : List UInt8)
    (hH : 2 ≤ H) (hW : 0 < W) (hlen : data.length < H * (4 * W)) :
    flipImage W H data = none := by
  obtain ⟨m, hm⟩ : ∃ m, H / 2 = m + 1 := ⟨H / 2 - 1, by omega⟩
  have hcol : colLoop (0 * (4 * W)) ((H - 0 - 1) * (4 * W)) (4 * W) data = none := by
    apply colLoop_panics _ _ _ _ (by omega)
    have hs := add_one_mul_eq (H - 0 - 1) (4 * W)
    rw [show H - 0 - 1 + 1 = H from by omega] at hs
    omega
  rw [flipImage, hm]
  simp only [rowLoop, hcol, Option.bind_eq_bind, Option.none_bind]

/-
Supporting lemmas for the claim theorems.
-/

/-- Unfolding of the builder on a builder assembled by new. -/
theorem build_eq (m : BitmapFontAtlasMetadata) (img : BitmapFontAtlasImage) :
    BitmapFontAtlasBuilder.build (BitmapFontAtlasBuilder.new m img) =
      if m.origin = Origin.BottomLeft then
        match flipImage img.width img.height img.data with
        | some d => some (BitmapFontAtlas.new m { img with data := d })
        | none => none
      else some (BitmapFontAtlas.new m img) := rfl

/-- Looking up the metadata entry in the two-entry container written by
to_writer finds the first entry. -/
theorem lookup_metadata_entry (e1 e2 : Entry) :
    List.lookup "metadata.json" [("metadata.json", e1), ("atlas.png", e2)] =
      some e1 := rfl

/-- Looking up the image entry in the two-entry container written by
to_writer finds the second entry. -/
theorem lookup_atlas_entry (e1 e2 : Entry) :
    List.lookup "atlas.png" [("metadata.json", e1), ("atlas.png", e2)] =
      some e2 := rfl

/-
The claim theorems.
-/

/-- Failure cascade of the read operation exactly as the specification
words it: container cannot be opened, then metadata entry missing, then
metadata fails schema decode, then image entry missing, then image fails
raster decode, each stage with its own error kind, stopping at the first
failure. -/
def specReadFailureOrder (src : Source) : Option ErrorKind :=
  match src with
  | Source.unopenable => some ErrorKind.FileExistsButCannotBeOpened
  | Source.archive entries =>
    match entries.lookup "metadata.json" with
    | none => some ErrorKind.FontMetadataNotFound
    | some metadataFile =>
      match decodeMetadata metadataFile with
      | none => some ErrorKind.CannotLoadAtlasMetadata
      | some _ =>
        match entries.lookup "atlas.png" with
        | none => some ErrorKind.FontAtlasImageNotFound
        | some atlasFile =>
          match decodePng atlasFile with
          | none => some ErrorKind.CannotLoadAtlasImage
          | some _ => none

/-- C5: from_reader fails fast, stopping at the first failing stage and
returning, in order, FileExistsButCannotBeOpened for an unopenable
container, FontMetadataNotFound for a missing metadata entry,
CannotLoadAtlasMetadata for a metadata entry that fails schema decode,
FontAtlasImageNotFound for a missing image entry, and CannotLoadAtlasImage
for an image entry that fails raster decode; the five kinds are pairwise
distinct. -/
theorem C5_fail_fast_order :
    (∀ src, readErrorKind (from_reader src) = specReadFailureOrder src) ∧
      List.Pairwise (fun a b => a ≠ b)
        [ErrorKind.FileExistsButCannotBeOpened,
         ErrorKind.FontMetadataNotFound,
         ErrorKind.CannotLoadAtlasMetadata,
         ErrorKind.FontAtlasImageNotFound,
         ErrorKind.CannotLoadAtlasImage] := by
  constructor
  · intro src
    cases src with
    | unopenable => rfl
    | archive entries =>
      simp only [from_reader, specReadFailureOrder]
      cases entries.lookup "metadata.json" with
      | none => rfl
      | some metadataFile =>
        dsimp only
        cases decodeMetadata metadataFile with
        | none => rfl
        | some metadata =>
          dsimp only
          cases entries.lookup "atlas.png" with
          | none => rfl
          | some atlasFile =>
            dsimp only
            cases decodePng atlasFile with
            | none => rfl
            | some t =>
              obtain ⟨w, h, image⟩ := t
              dsimp only
              cases (BitmapFontAtlasBuilder.new metadata
                  (BitmapFontAtlasImage.new image w h metadata.origin)).build with
              | none => rfl
              | some atlas => rfl
  · decide

/-- C10: re-deriving the metadata from an atlas constructed by
BitmapFontAtlas::new returns the construction metadata exactly,
independently of the image. -/
theorem C10_metadata_inverse (m : BitmapFontAtlasMetadata)
    (i : BitmapFontAtlasImage) :
    (BitmapFontAtlas.new m i).metadata = m := by
  cases m
  rfl

/-- C6: to_writer never modifies the caller atlas: the atlas state after
the call, whether the write succeeds or panics, is the atlas it was given,
including its canonical image bytes, because the write-side flip runs on a
copy of the image. -/
theorem C6_write_preserves_atlas (atlas : BitmapFontAtlas) :
    (to_writer atlas).2 = atlas ∧
      (to_writer atlas).2.image.data = atlas.image.data := by
  have h2 : (to_writer atlas).2 = atlas := by
    unfold to_writer
    cases flippedForWrite atlas.image
    · rfl
    · rfl
  exact ⟨h2, by rw [h2]⟩

/-- C7: on a zero-width or zero-height image the origin normalization in
the builder is a no-op for either origin value: it succeeds (no
out-of-bounds indexing) and returns the image bytes unchanged. -/
theorem C7_zero_size_noop (m : BitmapFontAtlasMetadata)
    (img : BitmapFontAtlasImage) (h : img.width = 0 ∨ img.height = 0) :
    BitmapFontAtlasBuilder.build (BitmapFontAtlasBuilder.new m img) =
      some (BitmapFontAtlas.new m img) := by
  have hflip := flipImage_trivial img.width img.height img.data h
  rw [build_eq]
  by_cases ho : m.origin = Origin.BottomLeft
  · rw [if_pos ho, hflip]
  · rw [if_neg ho]

/-- Witness for C7 at a concrete zero-width image with each origin. -/
theorem C7_zero_size_noop_witness :
    BitmapFontAtlasBuilder.build (BitmapFontAtlasBuilder.new
        ⟨Origin.BottomLeft, 0, 0, 0, 0, 0, 0, []⟩
        ⟨Origin.BottomLeft, 0, 5, [1, 2, 3]⟩) =
      some (BitmapFontAtlas.new
        ⟨Origin.BottomLeft, 0, 0, 0, 0, 0, 0, []⟩
        ⟨Origin.BottomLeft, 0, 5, [1, 2, 3]⟩) :=
  C7_zero_size_noop _ _ (Or.inl rfl)

/-- C3: on a buffer of the image size, the row-flip transform succeeds
and applying it twice restores the buffer bytewise, for any width and any
even or odd height. -/
theorem C3_flip_involution (width height : Nat) (data : List UInt8)
    (hlen : data.length = 4 * width * height) :
    ∃ d, flipImage width height data = some d ∧
      flipImage width height d = some data :=
  flipImage_involutive width height data hlen

/-- Concrete buffer for the C3 witness: one pixel wide, three rows. -/
def dataC3 : List UInt8 := [0, 1, 2, 3, 4, 5, 6, 7, 8, 9, 10, 11]

/-- Witness for C3 on a concrete 1-by-3 buffer of odd height. -/
theorem C3_flip_involution_witness :
    ∃ d, flipImage 1 3 dataC3 = some d ∧ flipImage 1 3 d = some dataC3 :=
  C3_flip_involution 1 3 dataC3 (by decide)

/-- C4: the origin normalization applied by the builder is the identity on
the image bytes when the declared origin is TopLeft; when it is BottomLeft
and the buffer has the image size, row r is swapped with row
height - 1 - r for every r in the lower half, and an odd-height middle row
is left untouched. -/
theorem C4_origin_normalization (m : BitmapFontAtlasMetadata)
    (img : BitmapFontAtlasImage) :
    (m.origin = Origin.TopLeft →
      BitmapFontAtlasBuilder.build (BitmapFontAtlasBuilder.new m img) =
        some (BitmapFontAtlas.new m img)) ∧
    (m.origin = Origin.BottomLeft →
      img.data.length = 4 * img.width * img.height →
      ∃ d, BitmapFontAtlasBuilder.build (BitmapFontAtlasBuilder.new m img) =
          some (BitmapFontAtlas.new m { img with data := d }) ∧
        d.length = img.data.length ∧
        (∀ r c, r < img.height / 2 → c < 4 * img.width →
          d[r * (4 * img.width) + c]? =
            img.data[(img.height - 1 - r) * (4 * img.width) + c]? ∧
          d[(img.height - 1 - r) * (4 * img.width) + c]? =
            img.data[r * (4 * img.width) + c]?) ∧
        (img.height % 2 = 1 → ∀ c, c < 4 * img.width →
          d[(img.height / 2) * (4 * img.width) + c]? =
            img.data[(img.height / 2) * (4 * img.width) + c]?)) := by
  constructor
  · intro h
    rw [build_eq, if_neg (by rw [h]; decide)]
  · intro hor hlen
    have hle : img.height * (4 * img.width) ≤ img.data.length := by
      have hc : 4 * img.width * img.height = img.height * (4 * img.width) := by
        ring
      omega
    obtain ⟨d, hd, hdl, hchar⟩ :=
      flipImage_char img.width img.height img.data hle
    refine ⟨d, ?_, hdl, ?_, ?_⟩
    · rw [build_eq, if_pos hor, hd]
    · intro r c hr hc
      refine ⟨hchar r c hc (by omega), ?_⟩
      rw [hchar (img.height - 1 - r) c hc (by omega),
        show img.height - 1 - (img.height - 1 - r) = r from by omega]
    · intro hodd c hc
      rw [hchar (img.height / 2) c hc (by omega),
        show img.height - 1 - img.height / 2 = img.height / 2 from by omega]

/-- Concrete metadata declaring a TopLeft origin and dimensions 2. -/
def metaC2 : BitmapFontAtlasMetadata :=
  ⟨Origin.TopLeft, 2, 1, 1, 0, 2, 2, []⟩

/-- Concrete metadata declaring a BottomLeft origin and dimensions 2. -/
def metaBL : BitmapFontAtlasMetadata :=
  ⟨Origin.BottomLeft, 2, 1, 1, 0, 2, 2, []⟩

/-- Concrete one-pixel image tagged TopLeft. -/
def imgTL : BitmapFontAtlasImage :=
  ⟨Origin.TopLeft, 1, 1, [1, 2, 3, 4]⟩

/-- Concrete 1-by-2 image tagged BottomLeft with exactly 8 bytes. -/
def imgBL : BitmapFontAtlasImage :=
  ⟨Origin.BottomLeft, 1, 2, [1, 2, 3, 4, 5, 6, 7, 8]⟩

/-- Witness for C4: the TopLeft identity at a concrete image and the
BottomLeft row swap characterization at a concrete 1-by-2 image. -/
theorem C4_origin_normalization_witness :
    BitmapFontAtlasBuilder.build (BitmapFontAtlasBuilder.new metaC2 imgTL) =
      some (BitmapFontAtlas.new metaC2 imgTL) ∧
    (∃ d, BitmapFontAtlasBuilder.build (BitmapFontAtlasBuilder.new metaBL imgBL) =
        some (BitmapFontAtlas.new metaBL { imgBL with data := d }) ∧
      d.length = imgBL.data.length ∧
      (∀ r c, r < imgBL.height / 2 → c < 4 * imgBL.width →
        d[r * (4 * imgBL.width) + c]? =
          imgBL.data[(imgBL.height - 1 - r) * (4 * imgBL.width) + c]? ∧
        d[(imgBL.height - 1 - r) * (4 * imgBL.width) + c]? =
          imgBL.data[r * (4 * imgBL.width) + c]?) ∧
      (imgBL.height % 2 = 1 → ∀ c, c < 4 * imgBL.width →
        d[(imgBL.height / 2) * (4 * imgBL.width) + c]? =
          imgBL.data[(imgBL.height / 2) * (4 * imgBL.width) + c]?)) :=
  ⟨(C4_origin_normalization metaC2 imgTL).1 rfl,
   (C4_origin_normalization metaBL imgBL).2 rfl (by decide)⟩

/-- C9: with a BottomLeft metadata origin the builder is safe exactly
under the unstated length precondition: a buffer of at least
4 * width * height bytes makes the build succeed, while a strictly shorter
buffer, for an image with at least two rows and nonzero width, makes the
flip index out of bounds and the build panic instead of returning a typed
error. -/
theorem C9_bottomleft_length_precondition (m : BitmapFontAtlasMetadata)
    (img : BitmapFontAtlasImage) (hor : m.origin = Origin.BottomLeft) :
    (4 * img.width * img.height ≤ img.data.length →
      (BitmapFontAtlasBuilder.build
        (BitmapFontAtlasBuilder.new m img)).isSome = true) ∧
    (2 ≤ img.height → 0 < img.width →
      img.data.length < 4 * img.width * img.height →
      BitmapFontAtlasBuilder.build (BitmapFontAtlasBuilder.new m img) =
        none) := by
  have hc : 4 * img.width * img.height = img.height * (4 * img.width) := by
    ring
  constructor
  · intro hle
    obtain ⟨d, hd, _, _⟩ :=
      flipImage_char img.width img.height img.data (by omega)
    rw [build_eq, if_pos hor, hd]
    rfl
  · intro h2 hw hlen
    have hnone :=
      flipImage_panics img.width img.height img.data h2 hw (by omega)
    rw [build_eq, if_pos hor, hnone]

/-- Concrete BottomLeft image whose buffer is one byte short of the
4 * width * height bytes its dimensions declare. -/
def imgShort : BitmapFontAtlasImage :=
  ⟨Origin.BottomLeft, 1, 2, [1, 2, 3, 4, 5, 6, 7]⟩

/-- Witness for C9: the build succeeds on a full 1-by-2 buffer and
panics on a 7-byte buffer declared as 1-by-2. -/
theorem C9_bottomleft_length_precondition_witness :
    (BitmapFontAtlasBuilder.build
      (BitmapFontAtlasBuilder.new metaBL imgBL)).isSome = true ∧
    BitmapFontAtlasBuilder.build (BitmapFontAtlasBuilder.new metaBL imgShort) =
      none :=
  ⟨(C9_bottomleft_length_precondition metaBL imgBL rfl).1 (by decide),
   (C9_bottomleft_length_precondition metaBL imgShort rfl).2
     (by decide) (by decide) (by decide)⟩

/-- Concrete 4-byte buffer, the decode of a 1-by-1 png entry. -/
def bytesC2 : List UInt8 := [9, 9, 9, 9]

/-- Concrete archive whose metadata declares dimensions 2 but whose image
entry decodes to only 4 bytes instead of 4 * 2 * 2 = 16. -/
def entriesC2 : List (String × Entry) :=
  [("metadata.json", Entry.json metaC2), ("atlas.png", Entry.png 1 1 bytesC2)]

/-- Counterexample to C2: on a container whose decoded image byte length
disagrees with the declared metadata dimensions, from_reader does not fail
at all, and in particular does not return the CannotLoadAtlasImage kind
(the closest analogue of ImageCorrupt in the code): it returns an atlas. -/
theorem C2_length_mismatch_counterexample :
    bytesC2.length ≠ 4 * metaC2.dimensions ^ 2 ∧
      (from_reader (Source.archive entriesC2)).isOk = true ∧
      readErrorKind (from_reader (Source.archive entriesC2)) ≠
        some ErrorKind.CannotLoadAtlasImage := by
  refine ⟨by decide, ?_, ?_⟩
  · rfl
  · intro h
    exact Option.noConfusion h

/-- C2 as amended: from_reader performs no image length validation.  When
the archive opens and both entries decode, a TopLeft-origin read returns
the decoded bytes unchanged in the atlas even though their length
disagrees with 4 * dimensions squared; the builder neither resizes nor
pads them.  CannotLoadAtlasImage arises only from a raster decode
failure. -/
theorem C2_no_length_validation (entries : List (String × Entry))
    (m : BitmapFontAtlasMetadata) (w h : Nat) (bytes : List UInt8)
    (hm : entries.lookup "metadata.json" = some (Entry.json m))
    (ha : entries.lookup "atlas.png" = some (Entry.png w h bytes))
    (hor : m.origin = Origin.TopLeft)
    (hlen : bytes.length ≠ 4 * m.dimensions ^ 2) :
    from_reader (Source.archive entries) =
      ReadResult.ok (BitmapFontAtlas.new m
        (BitmapFontAtlasImage.new bytes w h m.origin)) := by
  simp only [from_reader, hm, decodeMetadata, ha, decodePng]
  rw [build_eq, if_neg (by rw [hor]; decide)]

/-- Witness for the amended C2 at the concrete mismatched container:
the read succeeds and hands back the 4-byte buffer untouched. -/
theorem C2_no_length_validation_witness :
    from_reader (Source.archive entriesC2) =
      ReadResult.ok (BitmapFontAtlas.new metaC2
        (BitmapFontAtlasImage.new bytesC2 1 1 metaC2.origin)) :=
  C2_no_length_validation entriesC2 metaC2 1 1 bytesC2 rfl rfl rfl (by decide)

/-- C1: writing a valid atlas with to_writer and reading the written
container back with from_reader returns the very same atlas: every scalar
field, the glyph table, and the image bytes.  Validity is the invariants
the specification imposes on an atlas: the image is dimensions by
dimensions, its buffer has exactly 4 * dimensions * dimensions bytes, and
its origin tag agrees with the atlas origin. -/
theorem C1_roundtrip (atlas : BitmapFontAtlas)
    (hw : atlas.image.width = atlas.dimensions)
    (hh : atlas.image.height = atlas.dimensions)
    (ho : atlas.image.origin = atlas.origin)
    (hlen : atlas.image.data.length = 4 * atlas.dimensions * atlas.dimensions) :
    ∃ written, (to_writer atlas).1 = WriteResult.ok written ∧
      from_reader written = ReadResult.ok atlas := by
  obtain ⟨o, dims, cols, rws, pad, slot, gs, gm, img⟩ := atlas
  obtain ⟨io, iw, ih, idata⟩ := img
  dsimp only at hw hh ho hlen
  subst hw hh ho
  cases io with
  | TopLeft =>
    have hfw : flippedForWrite ⟨Origin.TopLeft, ih, ih, idata⟩ =
        some ⟨Origin.TopLeft, ih, ih, idata⟩ := by
      unfold flippedForWrite
      rw [if_neg (fun hx => Origin.noConfusion hx)]
    refine ⟨Source.archive
        [("metadata.json", Entry.json
            ⟨Origin.TopLeft, ih, cols, rws, pad, slot, gs, gm⟩),
         ("atlas.png", Entry.png ih ih idata)], ?_, ?_⟩
    · unfold to_writer
      dsimp only
      rw [hfw]
      rfl
    · simp only [from_reader, lookup_metadata_entry, decodeMetadata,
        lookup_atlas_entry, decodePng]
      rw [build_eq, if_neg (fun hx => Origin.noConfusion hx)]
      rfl
  | BottomLeft =>
    obtain ⟨e, he, hinv⟩ := flipImage_involutive ih ih idata hlen
    have hfw : flippedForWrite ⟨Origin.BottomLeft, ih, ih, idata⟩ =
        some ⟨Origin.BottomLeft, ih, ih, e⟩ := by
      unfold flippedForWrite
      rw [if_pos rfl, he]
    refine ⟨Source.archive
        [("metadata.json", Entry.json
            ⟨Origin.BottomLeft, ih, cols, rws, pad, slot, gs, gm⟩),
         ("atlas.png", Entry.png ih ih e)], ?_, ?_⟩
    · unfold to_writer
      dsimp only
      rw [hfw]
      rfl
    · simp only [from_reader, lookup_metadata_entry, decodeMetadata,
        lookup_atlas_entry, decodePng]
      rw [build_eq, if_pos rfl]
      simp only [BitmapFontAtlasImage.new]
      rw [hinv]
      rfl

/-- Concrete 16-byte buffer for a 2-by-2 atlas image. -/
def dataC1 : List UInt8 :=
  [0, 1, 2, 3, 4, 5, 6, 7, 8, 9, 10, 11, 12, 13, 14, 15]

/-- Concrete valid BottomLeft atlas with dimensions 2. -/
def atlasC1 : BitmapFontAtlas :=
  BitmapFontAtlas.new metaBL ⟨Origin.BottomLeft, 2, 2, dataC1⟩

/-- Witness for C1 at a concrete valid BottomLeft atlas. -/
theorem C1_roundtrip_witness :
    ∃ written, (to_writer atlasC1).1 = WriteResult.ok written ∧
      from_reader written = ReadResult.ok atlasC1 :=
  C1_roundtrip atlasC1 rfl rfl rfl (by decide)

/-- Characters before a dot are exactly what takeWhile keeps when none of
them is a dot. -/
theorem takeWhile_until_dot (l1 l2 : List Char) (h1 : ∀ x ∈ l1, x ≠ '.') :
    (l1 ++ '.' :: l2).takeWhile (fun c => c ≠ '.') = l1 := by
  induction l1 with
  | nil => simp [List.takeWhile_cons]
  | cons x xs ih =>
    have hx : x ≠ '.' := h1 x (by simp)
    rw [List.cons_append, List.takeWhile_cons, if_pos (by simp [hx]),
      ih (fun y hy => h1 y (by simp [hy]))]

/-- The extension of a name built as stem, dot, extension is that
extension, whenever the stem is nonempty and the extension is nonempty and
dot-free. -/
theorem rustExtension_of_append (stem ext : List Char)
    (hstem : stem ≠ []) (hdot : ∀ x ∈ ext, x ≠ '.') :
    rustExtension (stem ++ '.' :: ext) = some ext := by
  have hrev : (stem ++ '.' :: ext).reverse =
      ext.reverse ++ '.' :: stem.reverse := by
    simp [List.reverse_append]
  have htake : ((stem ++ '.' :: ext).reverse.takeWhile
      (fun c => c ≠ '.')).reverse = ext := by
    rw [hrev,
      takeWhile_until_dot _ _ (fun x hx => hdot x (List.mem_reverse.mp hx)),
      List.reverse_reverse]
  have hs : 0 < stem.length := List.length_pos.mpr hstem
  simp only [rustExtension, htake]
  rw [if_neg (by simp only [List.length_append, List.length_cons]; omega),
    if_neg (by simp only [List.length_append, List.length_cons]; omega)]

/-- When a file name has an extension, the name is at least two characters
longer than the extension: the last dot is not the leading character. -/
theorem rustExtension_some_le {p ext : List Char}
    (hx : rustExtension p = some ext) : ext.length + 2 ≤ p.length := by
  simp only [rustExtension] at hx
  by_cases c1 :
      ((p.reverse.takeWhile (fun c => c ≠ '.')).reverse).length = p.length
  · rw [if_pos c1] at hx
    exact Option.noConfusion hx
  · rw [if_neg c1] at hx
    by_cases c2 :
        ((p.reverse.takeWhile (fun c => c ≠ '.')).reverse).length + 1 =
          p.length
    · rw [if_pos c2] at hx
      exact Option.noConfusion hx
    · rw [if_neg c2] at hx
      have he := Option.some.inj hx
      have hA : ((p.reverse.takeWhile (fun c => c ≠ '.')).reverse).length ≤
          p.length := by
        have h1 :=
          (List.takeWhile_sublist (l := p.reverse) (fun c => c ≠ '.')).length_le
        simpa using h1
      rw [he] at c1 c2 hA
      omega

/-- The stem of a nonempty file name is nonempty. -/
theorem rustFileStem_ne_nil (p : List Char) (hp : p ≠ []) :
    rustFileStem p ≠ [] := by
  unfold rustFileStem
  cases hx : rustExtension p with
  | none => exact hp
  | some ext =>
    have hlen := rustExtension_some_le hx
    have hp0 : 0 < p.length := List.length_pos.mpr hp
    intro hcon
    have hlen2 := congrArg List.length hcon
    rw [List.length_take] at hlen2
    simp only [List.length_nil] at hlen2
    omega

/-- C8 as amended: for every path whose final component is a file name,
write_to_file creates the file at that path with its extension replaced by
bmfa, regardless of what extension the caller supplied; a path with no
file-name component (for example a root or parent-directory path) is the
one exception, left unchanged by set_extension. -/
theorem C8_extension_replaced (p : List Char) (atlas : BitmapFontAtlas)
    (hp : p ≠ []) :
    ∃ q, (write_to_file (some p) atlas).1 = some q ∧
      rustExtension q = some bmfaExt := by
  refine ⟨setExtensionName p bmfaExt, rfl, ?_⟩
  unfold setExtensionName
  rw [if_neg (by decide : ¬(bmfaExt = []))]
  exact rustExtension_of_append (rustFileStem p) bmfaExt
    (rustFileStem_ne_nil p hp) (by decide)

/-- Witness for the amended C8 at the concrete file name font.png: the
created file is font.bmfa. -/
theorem C8_extension_replaced_witness :
    ∃ q, (write_to_file
        (some ['f', 'o', 'n', 't', '.', 'p', 'n', 'g']) atlasC1).1 = some q ∧
      rustExtension q = some bmfaExt :=
  C8_extension_replaced ['f', 'o', 'n', 't', '.', 'p', 'n', 'g'] atlasC1
    (by decide)

/-- Counterexample to C8 as stated: on a path with no file-name component
(such as a bare parent-directory path), set_extension does nothing, so the
file is not created with the bmfa extension. -/
theorem C8_no_file_name_counterexample :
    (write_to_file none atlasC1).1 = none ∧
      Option.bind (write_to_file none atlasC1).1 rustExtension ≠
        some bmfaExt := by
  refine ⟨rfl, ?_⟩
  simp [write_to_file, pathSetExtension]
